import Mathlib

/-!
Verification of the tool-install step of the excerpted repository
(`src/pkg/tool/sonar/sonar.go`, `step` package section: `Run`,
`runIntallationScripts`, `Environs`, `GetObjectPath`).

Strings are modelled by Lean `String` (a wrapper around `List Char`); the
Go standard-library string and path helpers used by the step
(`strings.Split`, `strings.ReplaceAll`, `strings.TrimLeft`, `strings.Join`,
`path.Join` / `filepath.Join` with their `Clean` normalization) are
re-implemented below with the same semantics.

External effects (S3 client construction, cache fetch, origin HTTP
download, cache upload, script-file write, subprocess run) are modelled by
an oracle `World` supplying each call's outcome, and every call made by the
step is recorded in an event trace.
-/

/-- Go `strings.Split(s, sep)` for a one-character separator, on char
lists.  The result is always non-empty. -/
def splitOnChar (sep : Char) : List Char → List (List Char)
  | [] => [[]]
  | c :: cs =>
    if c = sep then [] :: splitOnChar sep cs
    else
      match splitOnChar sep cs with
      | [] => [[c]]
      | h :: t => (c :: h) :: t

/-- Join a list of parts with a one-character separator (inverse of
`splitOnChar`). -/
def sepJoin (sep : Char) : List (List Char) → List Char
  | [] => []
  | [p] => p
  | p :: ps => p ++ sep :: sepJoin sep ps

/-- Fuel-driven core of Go `strings.Replace(s, old, new, -1)` for
non-empty `old`: scan left to right, replacing each (non-overlapping)
occurrence of `old` by `new`.  Fuel `s.length` always suffices. -/
def replaceFuel (old new : List Char) : Nat → List Char → List Char
  | 0, s => s
  | fuel + 1, s =>
    if old ≠ [] ∧ old <+: s then new ++ replaceFuel old new fuel (s.drop old.length)
    else
      match s with
      | [] => []
      | c :: cs => c :: replaceFuel old new fuel cs

/-- Go `strings.ReplaceAll(s, old, new)`.  For `old = ""` Go inserts
`new` before every character and at the end. -/
def goReplaceAll (s old new : String) : String :=
  if old.data = [] then ⟨new.data ++ (s.data.map (fun c => c :: new.data)).flatten⟩
  else ⟨replaceFuel old.data new.data s.data.length s.data⟩

/-- Go `strings.TrimLeft(s, "/")`: drop every leading slash. -/
def trimLeftSlash (s : String) : String :=
  ⟨s.data.dropWhile (fun c => c = '/')⟩

/-- One element step of Go `path.Clean`: push onto the stack `acc` (most
recent first), dropping empty and `.` elements and resolving `..`. -/
def cleanStep (rooted : Bool) (acc : List (List Char)) (e : List Char) : List (List Char) :=
  if e = [] ∨ e = ['.'] then acc
  else if e = ['.', '.'] then
    match acc with
    | x :: rest => if x = ['.', '.'] then e :: acc else rest
    | [] => if rooted then [] else [e]
  else e :: acc

/-- Element processing of Go `path.Clean`: fold the slash-separated
elements through `cleanStep`. -/
def cleanCore (rooted : Bool) (elems : List (List Char)) : List (List Char) :=
  elems.foldl (cleanStep rooted) []

/-- Go `path.Clean` (equivalently `filepath.Clean` on slash-separated
paths). -/
def pathClean (p : String) : String :=
  match p.data with
  | [] => "."
  | c :: cs =>
    let rooted := c = '/'
    let parts := (cleanCore rooted (splitOnChar '/' (c :: cs))).reverse
    let out := (if rooted then ['/'] else []) ++ sepJoin '/' parts
    if out = [] then (if rooted then "/" else ".") else ⟨out⟩

/-- Go `path.Join(a, b)` (equal to `filepath.Join(a, b)` on a slash
separated system): skip leading empty elements, join with `/`, `Clean`. -/
def goPathJoin (a b : String) : String :=
  if a = "" then (if b = "" then "" else pathClean b)
  else pathClean (a ++ "/" ++ b)

/-- Go `strings.Join(lines, "\n")`. -/
def joinLines : List String → String
  | [] => ""
  | [x] => x
  | x :: xs => x ++ "\n" ++ joinLines xs

/-! ## Data model (`step.StepToolInstallSpec` and friends) -/

/-- The S3 storage configuration carried by the install spec
(`S3Storage` fields used by the step). -/
structure S3Storage where
  endpoint : String
  ak : String
  sk : String
  region : String
  insecure : Bool
  provider : String
  bucket : String
  subfolder : String
  deriving DecidableEq, Repr

/-- One entry of the install list (`step.Tool`). -/
structure Tool where
  name : String
  version : String
  download : String
  envs : List String
  scripts : List String
  deriving DecidableEq, Repr

/-- `step.StepToolInstallSpec`: the ordered tool list plus the shared
storage configuration.  A `none` entry models a nil `*step.Tool`. -/
structure StepToolInstallSpec where
  installs : List (Option Tool)
  s3Storage : S3Storage
  deriving DecidableEq, Repr

/-- `step.ToolInstallStep`: parsed spec, base envs, secret envs,
workspace. -/
structure ToolInstallStep where
  spec : StepToolInstallSpec
  envs : List String
  secretEnvs : List String
  workspace : String
  deriving DecidableEq, Repr

/-- One external call performed by the step, with its arguments. -/
inductive Event where
  | newClient (endpoint ak sk region : String) (insecure : Bool) (provider : String)
  | s3Fetch (bucket objectKey localPath : String)
  | httpFetch (url localPath : String)
  | s3Upload (bucket localPath objectKey : String)
  | writeScript (file body : String) (mode : Nat)
  | runCmd (file dir : String) (env : List String)
  deriving DecidableEq, Repr

/-- Oracle for the ambient system: environment constants and the outcome
(`none` = success, `some msg` = failure with message `msg`) of every
external call.  `filepathParam` and `cachePath` stand for the repository
constants `config.FilepathParam` and `config.ConstructCachePath`, whose
defining file is outside the excerpt; `home` stands for `config.Home()`,
`tempDir` for `os.TempDir()` and `uid` for the generated script-name
uuid. -/
structure World where
  home : String
  tempDir : String
  uid : Nat
  filepathParam : String
  cachePath : String
  newClientErr : String → String → String → String → Bool → String → Option String
  s3FetchErr : String → String → String → Option String
  httpFetchErr : String → String → Option String
  s3UploadErr : String → String → String → Option String
  writeFileErr : String → String → Nat → Option String
  runErr : String → String → List String → Option String

/-! ## The embedded program -/

/-- `step.Environs`: keep the assignments that are non-empty and split
into exactly two parts on `=`, replacing `$HOME` by the home
directory. -/
def Environs (home : String) : List String → List String
  | [] => []
  | val :: rest =>
    if val = "" then Environs home rest
    else if (splitOnChar '=' val.data).length ≠ 2 then Environs home rest
    else goReplaceAll val "$HOME" home :: Environs home rest

/-- `step.GetObjectPath`: join the subfolder and name and trim leading
slashes. -/
def GetObjectPath (name subFolder : String) : String :=
  if subFolder ≠ "" then trimLeftSlash (goPathJoin subFolder name)
  else trimLeftSlash name

/-- The per-tool cache subfolder written into
`s.spec.S3Storage.Subfolder`: `fmt.Sprintf("%s/%s-v%s",
config.ConstructCachePath, tool.Name, tool.Version)`. -/
def mkSubfolder (root name version : String) : String :=
  root ++ "/" ++ name ++ "-v" ++ version

/-- The origin filename: last element of `strings.Split(tool.Download,
"/")`. -/
def fileNameOf (t : Tool) : String :=
  ⟨(splitOnChar '/' t.download.data).getLastD []⟩

/-- The fixed local temp path `path.Join(os.TempDir(), fileName)`. -/
def tmpPathOf (w : World) (t : Tool) : String :=
  goPathJoin w.tempDir (fileNameOf t)

/-- The cache object key as a function of subfolder root, tool name,
tool version and origin filename. -/
def cacheObjectKey (root name version fileName : String) : String :=
  GetObjectPath fileName (mkSubfolder root name version)

/-- The object key the step computes for a tool. -/
def objectKeyOf (w : World) (t : Tool) : String :=
  cacheObjectKey w.cachePath t.name t.version (fileNameOf t)

/-- The generated script file path
`filepath.Join(os.TempDir(), fmt.Sprintf("install_script_%d.sh", uid.ID()))`. -/
def scriptFileOf (w : World) : String :=
  goPathJoin w.tempDir ("install_script_" ++ toString w.uid ++ ".sh")

/-- Result of the artifact-download block (lines 373–407 of the source):
the (possibly rewritten) storage config, the tmp path, the calls made,
and the fatal error if any. -/
structure DownloadResult where
  storage : S3Storage
  tmpPath : String
  trace : List Event
  error : Option String
  deriving Repr

/-- The `if tool.Download != ""` block of `runIntallationScripts`:
overwrite `Subfolder`, try the cache store, fall back to an origin
download, best-effort backfill upload (result discarded). -/
def downloadPhase (w : World) (st : S3Storage) (tool : Tool) : DownloadResult :=
  if tool.download = "" then ⟨st, "", [], none⟩
  else
    let st := { st with subfolder := mkSubfolder w.cachePath tool.name tool.version }
    let fileName := fileNameOf tool
    let tmpPath := goPathJoin w.tempDir fileName
    let ev0 := [Event.newClient st.endpoint st.ak st.sk st.region st.insecure st.provider]
    match w.newClientErr st.endpoint st.ak st.sk st.region st.insecure st.provider with
    | none =>
      let objectKey := GetObjectPath fileName st.subfolder
      let ev1 := ev0 ++ [Event.s3Fetch st.bucket objectKey tmpPath]
      match w.s3FetchErr st.bucket objectKey tmpPath with
      | none => ⟨st, tmpPath, ev1, none⟩
      | some _ =>
        let ev2 := ev1 ++ [Event.httpFetch tool.download tmpPath]
        match w.httpFetchErr tool.download tmpPath with
        | some msg =>
          ⟨st, tmpPath, ev2, some ("download package " ++ tool.download ++ " error: " ++ msg)⟩
        | none => ⟨st, tmpPath, ev2 ++ [Event.s3Upload st.bucket tmpPath objectKey], none⟩
    | some _ =>
      let ev2 := ev0 ++ [Event.httpFetch tool.download tmpPath]
      match w.httpFetchErr tool.download tmpPath with
      | some msg => ⟨st, tmpPath, ev2, some msg⟩
      | none => ⟨st, tmpPath, ev2, none⟩

/-- Result of installing one tool: the updated step state (envs and
storage mutations), the updated tool (its `Scripts` are rewritten in
place), the calls made, and the fatal error if any. -/
structure InstallResult where
  state : ToolInstallStep
  tool : Option Tool
  trace : List Event
  error : Option String
  deriving Repr

/-- `(*ToolInstallStep).runIntallationScripts`.  A nil tool returns
immediately.  `openProxy` is the always-false local variable, so the
proxy script lines are never appended.  The script body is the lines
joined by newline, written with mode `0o700`, then run with the step's
workspace and accumulated envs. -/
def runInstallationScripts (w : World) (s : ToolInstallStep) (tool? : Option Tool) :
    InstallResult :=
  match tool? with
  | none => ⟨s, none, [], none⟩
  | some tool =>
    let openProxy := false
    let scripts : List String := ["set -ex"]
    let s := { s with envs := s.envs ++ Environs w.home tool.envs }
    let scripts := if openProxy then scripts ++ [""] else scripts
    let dl := downloadPhase w s.spec.s3Storage tool
    let s := { s with spec := { s.spec with s3Storage := dl.storage } }
    match dl.error with
    | some e => ⟨s, some tool, dl.trace, some e⟩
    | none =>
      let tool := { tool with
        scripts := tool.scripts.map (fun c => goReplaceAll c w.filepathParam dl.tmpPath) }
      let scripts := scripts ++ tool.scripts
      let scripts := if openProxy then scripts ++ [""] else scripts
      let file := scriptFileOf w
      let body := joinLines scripts
      let trace1 := dl.trace ++ [Event.writeScript file body 0o700]
      match w.writeFileErr file body 0o700 with
      | some msg => ⟨s, some tool, trace1, some ("write script file error: " ++ msg)⟩
      | none =>
        let trace2 := trace1 ++ [Event.runCmd file s.workspace s.envs]
        match w.runErr file s.workspace s.envs with
        | some msg => ⟨s, some tool, trace2, some msg⟩
        | none => ⟨s, some tool, trace2, none⟩

/-- Result of the orchestrator loop over a tool list: the threaded step
state (its `installs` field is not consulted by the loop), the tool list
with in-place updates applied, the calls made, and the first error. -/
structure LoopResult where
  state : ToolInstallStep
  tools : List (Option Tool)
  trace : List Event
  error : Option String
  deriving Repr

/-- The loop body of `(*ToolInstallStep).Run`: install each tool in
order, stopping at the first error. -/
def runLoop (w : World) (s : ToolInstallStep) : List (Option Tool) → LoopResult
  | [] => ⟨s, [], [], none⟩
  | t? :: rest =>
    let r := runInstallationScripts w s t?
    match r.error with
    | some e => ⟨r.state, r.tool :: rest, r.trace, some e⟩
    | none =>
      let res := runLoop w r.state rest
      ⟨res.state, r.tool :: res.tools, r.trace ++ res.trace, res.error⟩

/-- Replace the install list of a step state (the in-place tool updates
folded back into the spec). -/
def setInstalls (s : ToolInstallStep) (l : List (Option Tool)) : ToolInstallStep :=
  { s with spec := { s.spec with installs := l } }

/-- Result of `(*ToolInstallStep).Run`. -/
structure StepResult where
  state : ToolInstallStep
  trace : List Event
  error : Option String
  deriving Repr

/-- `(*ToolInstallStep).Run`: iterate `runIntallationScripts` over
`s.spec.Installs`, fail fast, and return the final state (tool `Scripts`
mutations are visible through the spec, since the Go loop holds pointers
into it). -/
def runStep (w : World) (s : ToolInstallStep) : StepResult :=
  let r := runLoop w s s.spec.installs
  ⟨setInstalls r.state r.tools, r.trace, r.error⟩

/-! ## Claim-support definitions and sample inputs -/

/-- A good path component: non-empty, slash-free, not a dot element. -/
def goodElem (e : List Char) : Prop :=
  e ≠ [] ∧ '/' ∉ e ∧ e ≠ ['.'] ∧ e ≠ ['.', '.']

instance (e : List Char) : Decidable (goodElem e) := by
  unfold goodElem
  infer_instance

/-- The contribution of a (possibly nil) tool to the accumulated envs. -/
def envContribution (w : World) : Option Tool → List String
  | none => []
  | some t => Environs w.home t.envs

/-- The environment lists handed to subprocesses, in trace order. -/
def runEnvs (evs : List Event) : List (List String) :=
  evs.filterMap fun e =>
    match e with
    | .runCmd _ _ env => some env
    | _ => none

/-- The expected subprocess environments: each non-nil tool sees the
running accumulation of base envs plus all earlier tools' normalized
envs plus its own. -/
def accumRunEnvs (w : World) (base : List String) : List (Option Tool) → List (List String)
  | [] => []
  | none :: ts => accumRunEnvs w base ts
  | some t :: ts =>
    (base ++ Environs w.home t.envs) :: accumRunEnvs w (base ++ Environs w.home t.envs) ts

/-- All storage-configuration fields except `subfolder` coincide. -/
def storagePreserved (a b : S3Storage) : Prop :=
  b.endpoint = a.endpoint ∧ b.ak = a.ak ∧ b.sk = a.sk ∧ b.region = a.region
    ∧ b.insecure = a.insecure ∧ b.provider = a.provider ∧ b.bucket = a.bucket

/-- The in-place tool update leaves name, version, download and envs
unchanged, and rewrites the scripts at most by substituting the
artifact-path placeholder. -/
def toolPreserved (w : World) : Option Tool → Option Tool → Prop
  | none, none => True
  | some t, some u =>
    u.name = t.name ∧ u.version = t.version ∧ u.download = t.download ∧ u.envs = t.envs
      ∧ (u.scripts = t.scripts
         ∨ ∃ tmp, u.scripts = t.scripts.map (fun c => goReplaceAll c w.filepathParam tmp))
  | _, _ => False

/-- Extract origin-download calls from a trace. -/
def httpFetchArgs : Event → Option (String × String)
  | .httpFetch url localPath => some (url, localPath)
  | _ => none

/-- Extract cache-upload calls from a trace. -/
def uploadArgs : Event → Option (String × String × String)
  | .s3Upload bucket localPath objectKey => some (bucket, localPath, objectKey)
  | _ => none

/-- Classify the events of the artifact-resolution tier (cache store and
origin network calls). -/
def isResolverEvent : Event → Bool
  | .newClient _ _ _ _ _ _ => true
  | .s3Fetch _ _ _ => true
  | .httpFetch _ _ => true
  | .s3Upload _ _ _ => true
  | _ => false

/-- A sample world in which every external call succeeds. -/
def okW : World :=
  ⟨"/home/u", "/tmp", 7, "$FILE", "cache",
   fun _ _ _ _ _ _ => none, fun _ _ _ => none, fun _ _ => none,
   fun _ _ _ => none, fun _ _ _ => none, fun _ _ _ => none⟩

/-- A sample storage configuration. -/
def st0 : S3Storage := ⟨"ep", "AK", "SK", "rg", false, "minio", "bkt", "sub0"⟩

/-- A world whose cache fetch and origin download are both unreachable. -/
def failW : World :=
  { okW with s3FetchErr := fun _ _ _ => some "miss",
             httpFetchErr := fun _ _ => some "conn refused" }

/-- Sample tool with a download URL, for the failing-download scenario. -/
def nodeT : Tool := ⟨"node", "1.0", "http://example/tool.tgz", [], []⟩

/-- Sample one-tool step state for the failing-download scenario. -/
def nodeS : ToolInstallStep := ⟨⟨[some nodeT], st0⟩, [], [], "/ws"⟩

/-- Sample tool with env assignments and no download, for the
env-accumulation scenario. -/
def envTa : Tool := ⟨"a", "1", "", ["A=1"], ["echo a"]⟩

/-- Second sample tool for the env-accumulation scenario. -/
def envTb : Tool := ⟨"b", "1", "", ["C=2"], ["echo b"]⟩

/-- Two-tool step state with one base env and one secret env. -/
def envS : ToolInstallStep := ⟨⟨[some envTa, some envTb], st0⟩, ["B=0"], ["S=9"], "/ws"⟩

/-- Sample tool with download URL and a placeholder-bearing script, for
the spec-mutation scenario. -/
def mutT : Tool := ⟨"node", "18.0.0", "http://example/node.tar.gz", [], ["tar -xf $FILE"]⟩

/-- One-tool step state for the spec-mutation scenario. -/
def mutS : ToolInstallStep := ⟨⟨[some mutT], st0⟩, [], [], "/ws"⟩

/-- Sample tools for the fail-fast scenario. -/
def ffTa : Tool := ⟨"a", "1", "", ["A=1"], ["echo a"]⟩

/-- Second sample tool (its subprocess will fail). -/
def ffTb : Tool := ⟨"b", "1", "", ["B=2"], ["echo b"]⟩

/-- Third sample tool (never reached). -/
def ffTc : Tool := ⟨"c", "1", "", [], ["echo c"]⟩

/-- A world whose subprocess run fails once two envs have accumulated
(hence at the second tool). -/
def failRunW : World :=
  { okW with runErr := fun _ _ env => if 2 ≤ env.length then some "boom" else none }

/-- Three-tool step state for the fail-fast scenario. -/
def ffS : ToolInstallStep := ⟨⟨[some ffTa, some ffTb, some ffTc], st0⟩, [], [], "/ws"⟩

/-- Witness world where only the cache fetch fails. -/
def missW : World := { okW with s3FetchErr := fun _ _ _ => some "miss" }

/-- Sample self-provisioning tool (no download URL). -/
def selfT : Tool := ⟨"self", "1", "", [], ["make install"]⟩

/-- One-tool step state for the self-provisioning scenario. -/
def selfS : ToolInstallStep := ⟨⟨[some selfT], st0⟩, [], [], "/ws"⟩

/-- Sample tool whose single script line is `echo hi`. -/
def hiT : Tool := ⟨"hi", "1", "", [], ["echo hi"]⟩

/-- One-tool step state for the `echo hi` scenario. -/
def hiS : ToolInstallStep := ⟨⟨[some hiT], st0⟩, [], [], "/ws"⟩

/-! ## Lemmas and claim theorems -/

theorem strData_append (a b : String) : (a ++ b).data = a.data ++ b.data := rfl

theorem splitOnChar_ne_nil (sep : Char) (l : List Char) : splitOnChar sep l ≠ [] := by
  cases l with
  | nil => simp [splitOnChar]
  | cons c cs =>
    simp only [splitOnChar]
    split
    · simp
    · split <;> simp

theorem splitOnChar_no_sep (sep : Char) (l : List Char) (h : sep ∉ l) :
    splitOnChar sep l = [l] := by
  induction l with
  | nil => rfl
  | cons c cs ih =>
    simp only [List.mem_cons, not_or] at h
    simp only [splitOnChar]
    rw [if_neg (fun hc => h.1 hc.symm)]
    rw [ih h.2]

theorem splitOnChar_append_sep (sep : Char) (a rest : List Char) (h : sep ∉ a) :
    splitOnChar sep (a ++ sep :: rest) = a :: splitOnChar sep rest := by
  induction a with
  | nil => simp [splitOnChar]
  | cons c cs ih =>
    simp only [List.mem_cons, not_or] at h
    simp only [List.cons_append, splitOnChar, List.append_eq]
    rw [if_neg (fun hc => h.1 hc.symm), ih h.2]

theorem sepJoin_splitOnChar (sep : Char) (l : List Char) :
    sepJoin sep (splitOnChar sep l) = l := by
  induction l with
  | nil => rfl
  | cons c cs ih =>
    simp only [splitOnChar]
    split
    · rename_i hc
      have hne := splitOnChar_ne_nil sep cs
      cases hsp : splitOnChar sep cs with
      | nil => exact absurd hsp hne
      | cons h t =>
        rw [hsp] at ih
        rw [hc]
        simp [sepJoin, ← ih]
    · cases hsp : splitOnChar sep cs with
      | nil => exact absurd hsp (splitOnChar_ne_nil sep cs)
      | cons h t =>
        rw [hsp] at ih
        cases t with
        | nil => simpa [sepJoin] using congrArg (c :: ·) ih
        | cons t1 ts => simpa [sepJoin] using congrArg (c :: ·) ih

theorem infix_sepJoin_of_mem (sep : Char) (p : List Char) (parts : List (List Char))
    (h : p ∈ parts) : p <:+: sepJoin sep parts := by
  induction parts with
  | nil => cases h
  | cons q qs ih =>
    rcases List.mem_cons.mp h with rfl | hmem
    · cases qs with
      | nil => simp [sepJoin]
      | cons r rs => exact ⟨[], sep :: sepJoin sep (r :: rs), by simp [sepJoin]⟩
    · cases qs with
      | nil => cases hmem
      | cons r rs =>
        obtain ⟨u, v, huv⟩ := ih hmem
        exact ⟨q ++ sep :: u, v, by simp [sepJoin, ← huv]⟩

theorem mem_getLastD (l : List (List Char)) (d : List Char) (h : l ≠ []) :
    l.getLastD d ∈ l := by
  induction l generalizing d with
  | nil => exact absurd rfl h
  | cons a as ih =>
    cases as with
    | nil => simp [List.getLastD]
    | cons b bs =>
      rw [List.getLastD_cons]
      exact List.mem_cons_of_mem _ (ih a (by simp))

theorem replaceFuel_no_occur (old new s : List Char) (h : ¬ old <:+: s) (fuel : Nat) :
    replaceFuel old new fuel s = s := by
  induction fuel generalizing s with
  | zero => rfl
  | succ n ih =>
    simp only [replaceFuel]
    rw [if_neg (fun hp => h (by
      obtain ⟨u, hu⟩ := hp.2
      exact ⟨[], u, by simpa using hu⟩))]
    cases s with
    | nil => rfl
    | cons c cs =>
      have hcs : ¬ old <:+: cs := fun hi => h (List.infix_cons hi)
      show c :: replaceFuel old new n cs = c :: cs
      rw [ih cs hcs]

theorem goReplaceAll_no_occur (s old new : String) (h : ¬ old.data <:+: s.data) :
    goReplaceAll s old new = s := by
  have hne : old.data ≠ [] := by
    intro he
    exact h (by simp [he])
  simp only [goReplaceAll, if_neg hne]
  rw [replaceFuel_no_occur old.data new.data s.data h]

theorem cleanStep_good (rooted : Bool) (acc : List (List Char)) (e : List Char)
    (h1 : e ≠ []) (h2 : e ≠ ['.']) (h3 : e ≠ ['.', '.']) :
    cleanStep rooted acc e = e :: acc := by
  simp [cleanStep, h1, h2, h3]

theorem cleanCore_foldl_good (rooted : Bool) (l : List (List Char)) (acc : List (List Char))
    (h : ∀ e ∈ l, e ≠ [] ∧ e ≠ ['.'] ∧ e ≠ ['.', '.']) :
    l.foldl (cleanStep rooted) acc = l.reverse ++ acc := by
  induction l generalizing acc with
  | nil => rfl
  | cons e es ih =>
    have he := h e (List.mem_cons_self e es)
    rw [List.foldl_cons, cleanStep_good rooted acc e he.1 he.2.1 he.2.2]
    rw [ih (e :: acc) (fun x hx => h x (List.mem_cons_of_mem _ hx))]
    simp

theorem cleanCore_good (rooted : Bool) (l : List (List Char))
    (h : ∀ e ∈ l, e ≠ [] ∧ e ≠ ['.'] ∧ e ≠ ['.', '.']) :
    cleanCore rooted l = l.reverse := by
  rw [cleanCore, cleanCore_foldl_good rooted l [] h, List.append_nil]

theorem pathClean_three (r m f : List Char)
    (hr : goodElem r) (hm : goodElem m) (hf : goodElem f) :
    pathClean ⟨r ++ '/' :: m ++ '/' :: f⟩ = ⟨r ++ '/' :: m ++ '/' :: f⟩ := by
  obtain ⟨hrne, hrs, hrd, hrdd⟩ := hr
  obtain ⟨hmne, hms, hmd, hmdd⟩ := hm
  obtain ⟨hfne, hfs, hfd, hfdd⟩ := hf
  cases r with
  | nil => exact absurd rfl hrne
  | cons r0 rs =>
    have hr0 : r0 ≠ '/' := fun h => hrs (h ▸ List.mem_cons_self r0 rs)
    have hsplit : splitOnChar '/' ((r0 :: rs) ++ '/' :: (m ++ '/' :: f))
        = [r0 :: rs, m, f] := by
      rw [splitOnChar_append_sep '/' (r0 :: rs) (m ++ '/' :: f) hrs]
      rw [splitOnChar_append_sep '/' m f hms]
      rw [splitOnChar_no_sep '/' f hfs]
    simp only [pathClean, List.cons_append, List.append_assoc]
    rw [List.cons_append] at hsplit
    rw [hsplit, decide_eq_false hr0]
    rw [cleanCore_good false [r0 :: rs, m, f] (by
      intro e he
      simp only [List.mem_cons, List.not_mem_nil, or_false] at he
      rcases he with rfl | rfl | rfl
      · exact ⟨hrne, hrd, hrdd⟩
      · exact ⟨hmne, hmd, hmdd⟩
      · exact ⟨hfne, hfd, hfdd⟩)]
    simp only [List.reverse_reverse, if_neg hr0, sepJoin, List.nil_append]
    simp

theorem goodElem_mid (n v : List Char) (hn : '/' ∉ n) (hv : '/' ∉ v) :
    goodElem (n ++ '-' :: 'v' :: v) := by
  have hmem : '-' ∈ n ++ '-' :: 'v' :: v := List.mem_append_right n (List.mem_cons_self _ _)
  refine ⟨fun h => by simp [h] at hmem, ?_, fun h => by rw [h] at hmem; simp at hmem,
    fun h => by rw [h] at hmem; simp at hmem⟩
  simp only [List.mem_append, List.mem_cons, not_or]
  exact ⟨hn, by decide, by decide, hv⟩

theorem ris_state_fields (w : World) (s : ToolInstallStep) (t? : Option Tool) :
    (runInstallationScripts w s t?).state.envs = s.envs ++ envContribution w t?
    ∧ (runInstallationScripts w s t?).state.secretEnvs = s.secretEnvs
    ∧ (runInstallationScripts w s t?).state.workspace = s.workspace
    ∧ (runInstallationScripts w s t?).state.spec.installs = s.spec.installs := by
  cases t? with
  | none => simp [runInstallationScripts, envContribution]
  | some t =>
    simp only [runInstallationScripts, envContribution]
    split <;> (try split) <;> (try split) <;> simp

theorem downloadPhase_runEnvs (w : World) (st : S3Storage) (t : Tool) :
    runEnvs (downloadPhase w st t).trace = [] := by
  simp only [downloadPhase]
  repeat' split
  all_goals simp [runEnvs]

theorem ris_runEnvs_success (w : World) (s : ToolInstallStep) (t? : Option Tool)
    (h : (runInstallationScripts w s t?).error = none) :
    runEnvs (runInstallationScripts w s t?).trace
      = (match t? with
         | none => []
         | some t => [s.envs ++ Environs w.home t.envs]) := by
  cases t? with
  | none => simp [runInstallationScripts, runEnvs]
  | some t =>
    simp only [runInstallationScripts, envContribution] at h ⊢
    revert h
    split
    · intro h; simp at h
    · split
      · intro h; simp at h
      · split
        · intro h; simp at h
        · intro _
          have hdl := downloadPhase_runEnvs w
            ({ s with envs := s.envs ++ Environs w.home t.envs }).spec.s3Storage t
          simp only [runEnvs] at hdl ⊢
          simp [List.filterMap_append, hdl]

theorem runLoop_runEnvs (w : World) (tools : List (Option Tool)) :
    ∀ s : ToolInstallStep, (runLoop w s tools).error = none →
      runEnvs (runLoop w s tools).trace = accumRunEnvs w s.envs tools := by
  induction tools with
  | nil => intro s _; simp [runLoop, runEnvs, accumRunEnvs]
  | cons t? rest ih =>
    intro s h
    simp only [runLoop] at h ⊢
    revert h
    split
    · intro h; simp at h
    · rename_i heq
      intro h
      simp only [runEnvs, List.filterMap_append] at h ⊢
      have h1 := ris_runEnvs_success w s t? heq
      simp only [runEnvs] at h1
      rw [h1]
      have h2 := ih (runInstallationScripts w s t?).state h
      simp only [runEnvs] at h2
      rw [h2]
      have h3 := (ris_state_fields w s t?).1
      cases t? with
      | none =>
        simp only [envContribution, List.append_nil] at h3
        simp [accumRunEnvs, h3]
      | some t =>
        simp only [envContribution] at h3
        simp [accumRunEnvs, h3]

theorem runLoop_append (w : World) (pre rest : List (Option Tool)) :
    ∀ s : ToolInstallStep, (runLoop w s pre).error = none →
      runLoop w s (pre ++ rest) =
        ⟨(runLoop w (runLoop w s pre).state rest).state,
         (runLoop w s pre).tools ++ (runLoop w (runLoop w s pre).state rest).tools,
         (runLoop w s pre).trace ++ (runLoop w (runLoop w s pre).state rest).trace,
         (runLoop w (runLoop w s pre).state rest).error⟩ := by
  induction pre with
  | nil => intro s _; simp [runLoop]
  | cons t? pre ih =>
    intro s h
    simp only [runLoop] at h ⊢
    revert h
    split
    · intro h; simp at h
    · rename_i heq
      intro h
      simp only [List.append_eq]
      rw [ih (runInstallationScripts w s t?).state h]
      simp [runLoop, heq, List.append_assoc]

theorem storagePreserved_refl (a : S3Storage) : storagePreserved a a := by
  simp [storagePreserved]

theorem storagePreserved_trans (a b c : S3Storage)
    (h1 : storagePreserved a b) (h2 : storagePreserved b c) : storagePreserved a c := by
  obtain ⟨x1, x2, x3, x4, x5, x6, x7⟩ := h1
  obtain ⟨y1, y2, y3, y4, y5, y6, y7⟩ := h2
  exact ⟨y1.trans x1, y2.trans x2, y3.trans x3, y4.trans x4, y5.trans x5,
    y6.trans x6, y7.trans x7⟩

theorem toolPreserved_refl (w : World) (t? : Option Tool) : toolPreserved w t? t? := by
  cases t? <;> simp [toolPreserved]

theorem downloadPhase_storage (w : World) (st : S3Storage) (t : Tool) :
    storagePreserved st (downloadPhase w st t).storage := by
  simp only [downloadPhase]
  repeat' split
  all_goals simp [storagePreserved]

theorem ris_preserves (w : World) (s : ToolInstallStep) (t? : Option Tool) :
    storagePreserved s.spec.s3Storage (runInstallationScripts w s t?).state.spec.s3Storage
      ∧ toolPreserved w t? (runInstallationScripts w s t?).tool := by
  cases t? with
  | none => exact ⟨storagePreserved_refl _, trivial⟩
  | some t =>
    have hst := downloadPhase_storage w
      ({ s with envs := s.envs ++ Environs w.home t.envs }).spec.s3Storage t
    simp only [runInstallationScripts]
    split
    · exact ⟨hst, toolPreserved_refl w (some t)⟩
    · split
      · exact ⟨hst, ⟨rfl, rfl, rfl, rfl, Or.inr ⟨_, rfl⟩⟩⟩
      · split
        · exact ⟨hst, ⟨rfl, rfl, rfl, rfl, Or.inr ⟨_, rfl⟩⟩⟩
        · exact ⟨hst, ⟨rfl, rfl, rfl, rfl, Or.inr ⟨_, rfl⟩⟩⟩

theorem runLoop_preserves (w : World) (tools : List (Option Tool)) :
    ∀ s : ToolInstallStep,
      storagePreserved s.spec.s3Storage (runLoop w s tools).state.spec.s3Storage
        ∧ List.Forall₂ (toolPreserved w) tools (runLoop w s tools).tools := by
  induction tools with
  | nil => intro s; exact ⟨storagePreserved_refl _, List.Forall₂.nil⟩
  | cons t? rest ih =>
    intro s
    have hr := ris_preserves w s t?
    simp only [runLoop]
    split
    · refine ⟨hr.1, List.Forall₂.cons hr.2 ?_⟩
      exact (List.forall₂_same).mpr (fun x _ => toolPreserved_refl w x)
    · have hrest := ih (runInstallationScripts w s t?).state
      exact ⟨storagePreserved_trans _ _ _ hr.1 hrest.1, List.Forall₂.cons hr.2 hrest.2⟩

theorem ris_upload_oracle_irrelevant (w : World) (g : String → String → String → Option String)
    (s : ToolInstallStep) (t? : Option Tool) :
    runInstallationScripts { w with s3UploadErr := g } s t? = runInstallationScripts w s t? := by
  cases t? <;> rfl

theorem downloadPhase_cache_miss (w : World) (st : S3Storage) (t : Tool) (m : String)
    (hd : t.download ≠ "")
    (hc : w.newClientErr st.endpoint st.ak st.sk st.region st.insecure st.provider = none)
    (hf : w.s3FetchErr st.bucket
        (GetObjectPath (fileNameOf t) (mkSubfolder w.cachePath t.name t.version))
        (goPathJoin w.tempDir (fileNameOf t)) = some m) :
    (downloadPhase w st t).trace.filterMap httpFetchArgs
        = [(t.download, goPathJoin w.tempDir (fileNameOf t))]
    ∧ (w.httpFetchErr t.download (goPathJoin w.tempDir (fileNameOf t)) = none →
        (downloadPhase w st t).trace.filterMap uploadArgs
          = [(st.bucket, goPathJoin w.tempDir (fileNameOf t),
              GetObjectPath (fileNameOf t) (mkSubfolder w.cachePath t.name t.version))])
    ∧ ((∀ msg, w.httpFetchErr t.download (goPathJoin w.tempDir (fileNameOf t)) = some msg →
        (downloadPhase w st t).error
          = some ("download package " ++ t.download ++ " error: " ++ msg))) := by
  simp only [downloadPhase, if_neg hd, hc, hf]
  cases hh : w.httpFetchErr t.download (goPathJoin w.tempDir (fileNameOf t)) with
  | none => simp [httpFetchArgs, uploadArgs]
  | some msg => simp [httpFetchArgs, uploadArgs]

theorem ris_cache_miss (w : World) (s : ToolInstallStep) (t : Tool) (m : String)
    (hd : t.download ≠ "")
    (hc : w.newClientErr s.spec.s3Storage.endpoint s.spec.s3Storage.ak s.spec.s3Storage.sk
        s.spec.s3Storage.region s.spec.s3Storage.insecure s.spec.s3Storage.provider = none)
    (hf : w.s3FetchErr s.spec.s3Storage.bucket (objectKeyOf w t) (tmpPathOf w t) = some m) :
    (runInstallationScripts w s (some t)).trace.filterMap httpFetchArgs
        = [(t.download, tmpPathOf w t)]
    ∧ (w.httpFetchErr t.download (tmpPathOf w t) = none →
        (runInstallationScripts w s (some t)).trace.filterMap uploadArgs
          = [(s.spec.s3Storage.bucket, tmpPathOf w t, objectKeyOf w t)])
    ∧ (∀ msg, w.httpFetchErr t.download (tmpPathOf w t) = some msg →
        (runInstallationScripts w s (some t)).error
          = some ("download package " ++ t.download ++ " error: " ++ msg)) := by
  simp only [objectKeyOf, cacheObjectKey, tmpPathOf] at hf ⊢
  have hdp := downloadPhase_cache_miss w s.spec.s3Storage t m hd hc hf
  simp only [runInstallationScripts]
  split
  · rename_i e heq
    refine ⟨by simpa using hdp.1, fun hh => by simpa using hdp.2.1 hh, fun msg hh => ?_⟩
    have herr := hdp.2.2 msg hh
    rw [heq] at herr
    simpa using herr
  · rename_i heq
    refine ⟨?_, fun hh => ?_, fun msg hh => ?_⟩
    · repeat' split
      all_goals simp [List.filterMap_append, httpFetchArgs, hdp.1]
    · repeat' split
      all_goals simp [List.filterMap_append, uploadArgs, hdp.2.1 hh]
    · exfalso
      have hcontra := hdp.2.2 msg hh
      rw [heq] at hcontra
      exact Option.noConfusion hcontra

theorem cacheObjectKey_template (root n v f : String)
    (hr : goodElem root.data) (hn : '/' ∉ n.data) (hv : '/' ∉ v.data)
    (hf : goodElem f.data) :
    cacheObjectKey root n v f = trimLeftSlash (root ++ "/" ++ n ++ "-v" ++ v ++ "/" ++ f) := by
  have hdata : (mkSubfolder root n v ++ "/" ++ f).data
      = root.data ++ '/' :: (n.data ++ '-' :: 'v' :: v.data) ++ '/' :: f.data := by
    simp [mkSubfolder, strData_append, List.append_assoc]
  have hne : mkSubfolder root n v ≠ "" := by
    intro h
    have h2 : (mkSubfolder root n v).data = [] := congrArg String.data h
    simp [mkSubfolder, strData_append] at h2
  have hstr : mkSubfolder root n v ++ "/" ++ f
      = ⟨root.data ++ '/' :: (n.data ++ '-' :: 'v' :: v.data) ++ '/' :: f.data⟩ :=
    String.ext hdata
  simp only [cacheObjectKey, GetObjectPath, if_pos hne, goPathJoin, if_neg hne]
  rw [hstr, pathClean_three root.data (n.data ++ '-' :: 'v' :: v.data) f.data hr
    (goodElem_mid n.data v.data hn hv) hf, ← hstr]
  simp only [mkSubfolder]

theorem fileNameOf_within_url (t : Tool) : (fileNameOf t).data <:+: t.download.data := by
  have hne := splitOnChar_ne_nil '/' t.download.data
  have hmem := mem_getLastD (splitOnChar '/' t.download.data) [] hne
  have hinf := infix_sepJoin_of_mem '/' _ _ hmem
  rwa [sepJoin_splitOnChar] at hinf

theorem ris_client_fail (w : World) (s : ToolInstallStep) (t : Tool) (m msg : String)
    (hd : t.download ≠ "")
    (hc : w.newClientErr s.spec.s3Storage.endpoint s.spec.s3Storage.ak s.spec.s3Storage.sk
        s.spec.s3Storage.region s.spec.s3Storage.insecure s.spec.s3Storage.provider = some m)
    (hh : w.httpFetchErr t.download (tmpPathOf w t) = some msg) :
    (runInstallationScripts w s (some t)).error = some msg := by
  simp only [tmpPathOf] at hh
  simp only [runInstallationScripts, downloadPhase, if_neg hd, hc, hh]

theorem Environs_eq_filter_map (home : String) (envs : List String) :
    Environs home envs
      = (envs.filter (fun v => (splitOnChar '=' v.data).length == 2)).map
          (fun v => goReplaceAll v "$HOME" home) := by
  induction envs with
  | nil => rfl
  | cons val rest ih =>
    by_cases hval : val = ""
    · subst hval
      simpa [Environs] using ih
    · by_cases hlen : (splitOnChar '=' val.data).length = 2
      · simp [Environs, hval, hlen, ih]
      · simp [Environs, hval, hlen, ih]

/-- C6: normalizing tool env assignments keeps exactly those entries that
split into exactly two parts on the `=` character (with the home
placeholder substituted) and silently drops the rest; on input
`["A=1", "B", "=2", "C=3=3"]` the result is exactly `["A=1", "=2"]`:
`"B"` is dropped (no separator), `"C=3=3"` is dropped (three parts), and
`"=2"` is kept despite its empty key. -/
theorem c6_env_filtering :
    (∀ home envs, Environs home envs
        = (envs.filter (fun v => (splitOnChar '=' v.data).length == 2)).map
            (fun v => goReplaceAll v "$HOME" home))
    ∧ (∀ home, Environs home ["A=1", "B", "=2", "C=3=3"] = ["A=1", "=2"]) := by
  refine ⟨Environs_eq_filter_map, fun home => ?_⟩
  rw [Environs_eq_filter_map]
  have hfil : List.filter (fun v => (splitOnChar '=' v.data).length == 2)
      ["A=1", "B", "=2", "C=3=3"] = ["A=1", "=2"] := by decide
  rw [hfil]
  have h1 : goReplaceAll "A=1" "$HOME" home = "A=1" :=
    goReplaceAll_no_occur _ _ _ (by decide)
  have h2 : goReplaceAll "=2" "$HOME" home = "=2" :=
    goReplaceAll_no_occur _ _ _ (by decide)
  simp [h1, h2]

/-- C10: a nil entry in the tool list installs as an immediate success:
no external call is made, the step state (envs included) is unchanged,
and the orchestrator simply proceeds with the remaining tools. -/
theorem c10_nil_tool (w : World) (s : ToolInstallStep) (rest : List (Option Tool)) :
    runInstallationScripts w s none = ⟨s, none, [], none⟩
    ∧ runLoop w s (none :: rest)
        = ⟨(runLoop w s rest).state, none :: (runLoop w s rest).tools,
           (runLoop w s rest).trace, (runLoop w s rest).error⟩ := by
  refine ⟨rfl, ?_⟩
  simp [runLoop, runInstallationScripts]

/-- C7: for a tool whose Download field is empty, no cache-store
construction, cache fetch, origin download or backfill upload occurs,
and every occurrence of the artifact-path placeholder in the tool's
command templates is replaced by the empty string. -/
theorem c7_empty_download (w : World) (s : ToolInstallStep) (t : Tool)
    (hd : t.download = "") :
    (runInstallationScripts w s (some t)).trace.filter isResolverEvent = []
    ∧ (runInstallationScripts w s (some t)).tool
        = some { t with scripts := t.scripts.map (fun c => goReplaceAll c w.filepathParam "") } := by
  simp only [runInstallationScripts, downloadPhase, if_pos hd]
  repeat' split
  all_goals simp_all [isResolverEvent]

/-- C8: for a tool with `Scripts=["echo hi"]` (the proxy toggle being
always off), the generated script body is exactly the two lines
`set -ex` and `echo hi` joined by a newline, the script file is written
with mode `0o700` (= 448), and the write precedes the subprocess run in
the trace. -/
theorem c8_script_body (w : World) (s : ToolInstallStep) (t : Tool)
    (hs : t.scripts = ["echo hi"]) (hd : t.download = "")
    (hp : ¬ w.filepathParam.data <:+: ("echo hi").data) :
    (runInstallationScripts w s (some t)).trace.head?
        = some (Event.writeScript (scriptFileOf w) "set -ex\necho hi" 448)
    ∧ (w.writeFileErr (scriptFileOf w) "set -ex\necho hi" 448 = none →
        (runInstallationScripts w s (some t)).trace
          = [Event.writeScript (scriptFileOf w) "set -ex\necho hi" 448,
             Event.runCmd (scriptFileOf w) s.workspace (s.envs ++ Environs w.home t.envs)]) := by
  have hrep : goReplaceAll "echo hi" w.filepathParam "" = "echo hi" :=
    goReplaceAll_no_occur _ _ _ hp
  have hbody : joinLines ["set -ex", "echo hi"] = "set -ex\necho hi" := rfl
  simp only [runInstallationScripts, downloadPhase, if_pos hd, hs]
  simp only [Bool.false_eq_true, if_false, List.map_cons, List.map_nil, hrep,
    List.cons_append, List.nil_append]
  constructor
  · split <;> (try split) <;> simp [hbody]
  · intro hw
    rw [hbody, hw]
    repeat' split
    all_goals simp_all

/-- C3: when the cache fetch fails (the store having been constructed),
exactly one origin download of the tool's Download URL is attempted; if
it succeeds, exactly one backfill upload to the same bucket under the
same key is attempted; and the outcome of the install is entirely
independent of the upload oracle, so an upload failure never fails the
tool. -/
theorem c3_fallback_once (w : World) (s : ToolInstallStep) (t : Tool) (m : String)
    (hd : t.download ≠ "")
    (hc : w.newClientErr s.spec.s3Storage.endpoint s.spec.s3Storage.ak s.spec.s3Storage.sk
        s.spec.s3Storage.region s.spec.s3Storage.insecure s.spec.s3Storage.provider = none)
    (hf : w.s3FetchErr s.spec.s3Storage.bucket (objectKeyOf w t) (tmpPathOf w t) = some m) :
    (runInstallationScripts w s (some t)).trace.filterMap httpFetchArgs
        = [(t.download, tmpPathOf w t)]
    ∧ (w.httpFetchErr t.download (tmpPathOf w t) = none →
        (runInstallationScripts w s (some t)).trace.filterMap uploadArgs
          = [(s.spec.s3Storage.bucket, tmpPathOf w t, objectKeyOf w t)])
    ∧ (∀ g, runInstallationScripts { w with s3UploadErr := g } s (some t)
          = runInstallationScripts w s (some t)) :=
  ⟨(ris_cache_miss w s t m hd hc hf).1, (ris_cache_miss w s t m hd hc hf).2.1,
   fun g => ris_upload_oracle_irrelevant w g s (some t)⟩

/-- C2 counterexample: with cache store reachable but fetch and origin
both failing, the step returns the wrapped error
`download package http://example/tool.tgz error: conn refused`, which
mentions the origin filename `tool.tgz` but does not mention the tool's
declared name `node` — contradicting the claim that both appear. -/
theorem c2_counterexample :
    (runStep failW nodeS).error
      = some "download package http://example/tool.tgz error: conn refused"
    ∧ ("tool.tgz").data
        <:+: ("download package http://example/tool.tgz error: conn refused").data
    ∧ ¬ ("node").data
        <:+: ("download package http://example/tool.tgz error: conn refused").data := by
  refine ⟨by decide, by decide, by decide⟩

/-- C2 (amended): when cache fetch and origin download both fail, the
step returns a wrapped error mentioning the download URL (of which the
origin filename is a substring) but not necessarily the tool's name;
when the cache-store construction itself fails and the origin download
fails, the origin error is returned unwrapped. -/
theorem c2_amended_wrapping (w : World) (s : ToolInstallStep) (t : Tool) (msg : String)
    (hd : t.download ≠ "") :
    ((∀ m, w.newClientErr s.spec.s3Storage.endpoint s.spec.s3Storage.ak s.spec.s3Storage.sk
          s.spec.s3Storage.region s.spec.s3Storage.insecure s.spec.s3Storage.provider = none →
        w.s3FetchErr s.spec.s3Storage.bucket (objectKeyOf w t) (tmpPathOf w t) = some m →
        w.httpFetchErr t.download (tmpPathOf w t) = some msg →
        (runInstallationScripts w s (some t)).error
            = some ("download package " ++ t.download ++ " error: " ++ msg)
          ∧ t.download.data
              <:+: ("download package " ++ t.download ++ " error: " ++ msg).data
          ∧ (fileNameOf t).data <:+: t.download.data)
    ∧ (∀ m, w.newClientErr s.spec.s3Storage.endpoint s.spec.s3Storage.ak s.spec.s3Storage.sk
          s.spec.s3Storage.region s.spec.s3Storage.insecure s.spec.s3Storage.provider = some m →
        w.httpFetchErr t.download (tmpPathOf w t) = some msg →
        (runInstallationScripts w s (some t)).error = some msg)) := by
  constructor
  · intro m hc hf hh
    refine ⟨(ris_cache_miss w s t m hd hc hf).2.2 msg hh, ?_, fileNameOf_within_url t⟩
    refine ⟨("download package ").data, (" error: " ++ msg).data, ?_⟩
    simp [strData_append, List.append_assoc]
  · intro m hc hh
    exact ris_client_fail w s t m msg hd hc hh

/-- C1 counterexample: with base env `B=0`, secret env `S=9` and two
tools declaring `A=1` and `C=2`, the second tool's subprocess
environment is `["B=0", "A=1", "C=2"]`: it contains the previous tool's
assignment `A=1`, lacks the secret env `S=9`, and differs from the
claimed `base ++ secret ++ own` shape. -/
theorem c1_counterexample :
    (runEnvs (runStep okW envS).trace).get? 1 = some ["B=0", "A=1", "C=2"]
    ∧ ["B=0", "A=1", "C=2"]
        ≠ envS.envs ++ envS.secretEnvs ++ Environs okW.home envTb.envs
    ∧ "A=1" ∈ ["B=0", "A=1", "C=2"]
    ∧ "S=9" ∉ ["B=0", "A=1", "C=2"] := by
  refine ⟨by decide, by decide, by decide, by decide⟩

/-- C1 (amended): the environment list passed to tool `i`'s subprocess
is the step's accumulated list — the base envs followed by the
normalized env assignments of all non-nil tools up to and including
tool `i`, in order; the secret envs are never added. -/
theorem c1_amended_env_accumulation (w : World) (s : ToolInstallStep)
    (h : (runStep w s).error = none) :
    runEnvs (runStep w s).trace = accumRunEnvs w s.envs s.spec.installs :=
  runLoop_runEnvs w s.spec.installs s h

/-- C1 witness: the amended accumulation theorem instantiated on the
concrete two-tool run. -/
theorem c1_amended_witness :
    runEnvs (runStep okW envS).trace = accumRunEnvs okW envS.envs envS.spec.installs :=
  c1_amended_env_accumulation okW envS (by decide)

/-- C5 counterexample: a successful run over a tool with a download URL
and a placeholder-bearing script leaves the spec changed: the storage
Subfolder is overwritten with the per-tool cache path and the tool's
Scripts entry is rewritten — contradicting the claim that the parsed
spec is unchanged. -/
theorem c5_counterexample :
    (runStep okW mutS).state.spec.s3Storage.subfolder ≠ mutS.spec.s3Storage.subfolder
    ∧ (runStep okW mutS).state.spec.installs.get? 0 ≠ mutS.spec.installs.get? 0 := by
  refine ⟨by decide, by decide⟩

/-- C5 (amended): the step preserves every storage-configuration field
except Subfolder, and preserves each tool's name, version, download URL
and envs; only Subfolder may be overwritten and only the Scripts lists
may be rewritten, at most by substituting the artifact-path
placeholder. -/
theorem c5_amended_frame (w : World) (s : ToolInstallStep) :
    storagePreserved s.spec.s3Storage (runStep w s).state.spec.s3Storage
    ∧ List.Forall₂ (toolPreserved w) s.spec.installs (runStep w s).state.spec.installs :=
  ⟨(runLoop_preserves w s.spec.installs s).1, (runLoop_preserves w s.spec.installs s).2⟩

/-- C9: the orchestrator is sequential and fail-fast: if the tools
before position `i` succeed and the tool at position `i` fails with
error `e`, the whole loop returns `e` and its trace is exactly the
trace of the successful prefix followed by the failing tool's trace —
later tools are never attempted and nothing is rolled back; if the tool
at position `i` succeeds the loop continues with the remaining tools. -/
theorem c9_fail_fast (w : World) (s : ToolInstallStep) (pre post : List (Option Tool))
    (t? : Option Tool) (h : (runLoop w s pre).error = none) :
    (∀ e, (runInstallationScripts w (runLoop w s pre).state t?).error = some e →
        (runLoop w s (pre ++ t? :: post)).error = some e
        ∧ (runLoop w s (pre ++ t? :: post)).trace
            = (runLoop w s pre).trace
              ++ (runInstallationScripts w (runLoop w s pre).state t?).trace)
    ∧ ((runInstallationScripts w (runLoop w s pre).state t?).error = none →
        (runLoop w s (pre ++ t? :: post)).error
          = (runLoop w (runInstallationScripts w (runLoop w s pre).state t?).state post).error) := by
  have happ := runLoop_append w pre (t? :: post) s h
  constructor
  · intro e he
    rw [happ]
    simp [runLoop, he]
  · intro he
    rw [happ]
    simp [runLoop, he]

/-- C9 witness: in a three-tool run whose second subprocess fails with
`boom`, the loop returns `boom` and the trace stops after the second
tool. -/
theorem c9_witness :
    (runLoop failRunW ffS ([some ffTa] ++ (some ffTb) :: [some ffTc])).error = some "boom"
    ∧ (runLoop failRunW ffS ([some ffTa] ++ (some ffTb) :: [some ffTc])).trace
        = (runLoop failRunW ffS [some ffTa]).trace
          ++ (runInstallationScripts failRunW
              (runLoop failRunW ffS [some ffTa]).state (some ffTb)).trace :=
  (c9_fail_fast failRunW ffS [some ffTa] [some ffTc] (some ffTb) (by decide)).1
    "boom" (by decide)

/-- C4: the cache object key is a pure function of the subfolder root,
tool name, tool version and origin filename, equal to
`<root>/<name>-v<version>/<filename>` with leading slashes trimmed, for
components free of slashes and dot elements (the path-join `Clean`
normalization is the identity there). -/
theorem c4_cache_key (root n v f : String)
    (hr : goodElem root.data) (hn : '/' ∉ n.data) (hv : '/' ∉ v.data)
    (hf : goodElem f.data) :
    cacheObjectKey root n v f = trimLeftSlash (root ++ "/" ++ n ++ "-v" ++ v ++ "/" ++ f) :=
  cacheObjectKey_template root n v f hr hn hv hf

/-- C4 witness: for subfolder root `cache`, name `node`, version
`18.0.0` and filename `node.tar.gz`, the key is
`cache/node-v18.0.0/node.tar.gz`. -/
theorem c4_witness :
    cacheObjectKey "cache" "node" "18.0.0" "node.tar.gz" = "cache/node-v18.0.0/node.tar.gz" :=
  (c4_cache_key "cache" "node" "18.0.0" "node.tar.gz"
    (by decide) (by decide) (by decide) (by decide)).trans (by decide)

/-- C3 witness: a concrete cache-miss run performs exactly one origin
download and one backfill upload under the computed key. -/
theorem c3_witness :
    (runInstallationScripts missW nodeS (some nodeT)).trace.filterMap httpFetchArgs
        = [(nodeT.download, tmpPathOf missW nodeT)]
    ∧ (runInstallationScripts missW nodeS (some nodeT)).trace.filterMap uploadArgs
        = [(nodeS.spec.s3Storage.bucket, tmpPathOf missW nodeT, objectKeyOf missW nodeT)] := by
  have h := c3_fallback_once missW nodeS nodeT "miss" (by decide) (by decide) (by decide)
  exact ⟨h.1, h.2.1 (by decide)⟩

/-- C2 witness: the amended wrapping theorem instantiated on the
concrete unreachable-cache, unreachable-origin run. -/
theorem c2_amended_witness :
    (runInstallationScripts failW nodeS (some nodeT)).error
        = some ("download package " ++ nodeT.download ++ " error: " ++ "conn refused")
    ∧ nodeT.download.data
        <:+: ("download package " ++ nodeT.download ++ " error: " ++ "conn refused").data
    ∧ (fileNameOf nodeT).data <:+: nodeT.download.data :=
  (c2_amended_wrapping failW nodeS nodeT "conn refused" (by decide)).1
    "miss" (by decide) (by decide) (by decide)

/-- C7 witness: a concrete empty-download tool triggers no resolver
event and its script is rewritten with the placeholder replaced by the
empty string. -/
theorem c7_witness :
    (runInstallationScripts okW selfS (some selfT)).trace.filter isResolverEvent = []
    ∧ (runInstallationScripts okW selfS (some selfT)).tool
        = some { selfT with
            scripts := selfT.scripts.map (fun c => goReplaceAll c okW.filepathParam "") } :=
  c7_empty_download okW selfS selfT (by decide)

/-- C8 witness: the concrete `echo hi` tool produces the two-line
script body, written with mode 448 and then run. -/
theorem c8_witness :
    (runInstallationScripts okW hiS (some hiT)).trace.head?
        = some (Event.writeScript (scriptFileOf okW) "set -ex\necho hi" 448)
    ∧ (runInstallationScripts okW hiS (some hiT)).trace
        = [Event.writeScript (scriptFileOf okW) "set -ex\necho hi" 448,
           Event.runCmd (scriptFileOf okW) hiS.workspace
             (hiS.envs ++ Environs okW.home hiT.envs)] := by
  have h := c8_script_body okW hiS hiT (by decide) (by decide) (by decide)
  exact ⟨h.1, h.2 (by decide)⟩
